import Mathlib

/-!
Shallow embedding of the bridging engine of `go-discord-irc`
(`bridge/bridge.go`, `bridge/irc_puppeteer.go` and the alternate
`IRCPuppeteer` revision), together with theorems settling the
specification claims about channel-mapping reconfiguration, nickname
sanitisation, capability-dependent delivery and the IRC→Discord content
pipeline.

Go strings are modelled as Lean `String` (for the mapping store, whose
operations are whole-string comparisons and a single split on `" "`) and
as `List Char` (for the character-level content transformations).
-/

namespace Bridge

/-- Lower-case every character of a string. -/
def lowerStr (s : String) : String := String.mk (s.data.map Char.toLower)

/-- Go `strings.EqualFold` on channel names: case-insensitive equality,
modelled by comparing lower-cased strings. -/
def eqFold (a b : String) : Bool := lowerStr a == lowerStr b

/-- Go `strings.Split(s, " ")`: the fields of `s` around every single space
character (adjacent spaces yield empty fields; the empty string yields
one empty field). -/
def splitSpaceAux (acc : List Char) : List Char → List String
  | [] => [String.mk acc.reverse]
  | c :: rest =>
    if c = ' ' then String.mk acc.reverse :: splitSpaceAux [] rest
    else splitSpaceAux (c :: acc) rest

def splitSpace (s : String) : List String := splitSpaceAux [] s.data

/-- One channel mapping, from `bridge.go`:
`type Mapping struct { DiscordChannel, IRCChannel string }` (the struct
itself lives in a file of the same package; its two fields are exactly the
ones used throughout `bridge.go`). -/
structure Mapping where
  discordChannel : String
  ircChannel : String
deriving DecidableEq, Repr

/-- The parts of `Bridge` state owned by `SetChannelMappings`:
`b.mappings []Mapping` (a `nil` slice is `none` — `SetChannelMappings`
distinguishes a first load, `oldMappings == nil`, from a reconfiguration)
and `b.ircChannelKeys map[string]string` (modelled as an association
list). -/
structure BridgeState where
  mappings : Option (List Mapping)
  ircChannelKeys : List (String × String)
deriving DecidableEq, Repr

/-- Go map assignment `m[k] = v` on an association-list model. -/
def updateAssoc (l : List (String × String)) (k v : String) : List (String × String) :=
  match l with
  | [] => [(k, v)]
  | (k', v') :: rest => if k' = k then (k, v) :: rest else (k', v') :: updateAssoc rest k v

/-- The mapping-building part of the parse loop of `SetChannelMappings`
(`bridge.go:184-198`): split each IRC-side string on `" "`; an entry with
more than two parts is logged and skipped; otherwise a `Mapping` from the
Discord id to the part before the first space is appended. -/
def parsedMappings : List (String × String) → List Mapping
  | [] => []
  | (irc, discord) :: rest =>
    let parts := splitSpace irc
    if parts.length > 2 then parsedMappings rest
    else ⟨discord, parts.headD ""⟩ :: parsedMappings rest

/-- The key-table-building part of the same parse loop: an entry with
exactly two parts stores `ircChannelKeys[ircChannel] = parts[1]`. -/
def parsedKeysAux (keys : List (String × String)) :
    List (String × String) → List (String × String)
  | [] => keys
  | (irc, _) :: rest =>
    let parts := splitSpace irc
    if parts.length > 2 then parsedKeysAux keys rest
    else if parts.length = 2 then
      parsedKeysAux (updateAssoc keys (parts.headD "") (parts.getD 1 "")) rest
    else parsedKeysAux keys rest

def parsedKeys (entries : List (String × String)) : List (String × String) :=
  parsedKeysAux [] entries

/-- Whether `m` shares a Discord channel or an IRC channel with some
member of `ms`.  Comparison is plain `==`, as in `bridge.go:203`. -/
def conflictsWith (m : Mapping) (ms : List Mapping) : Bool :=
  ms.any (fun c => m.discordChannel == c.discordChannel || m.ircChannel == c.ircChannel)

/-- The duplicate-channel check of `SetChannelMappings`
(`bridge.go:200-209`): some two entries at distinct indices share a
Discord channel or an IRC channel.  The Go double loop tests the
symmetric condition at every `i ≠ j`; the triangular scan below is
equivalent. -/
def hasDuplicateChannels : List Mapping → Bool
  | [] => false
  | m :: rest => conflictsWith m rest || hasDuplicateChannels rest

/-- Result of a `SetChannelMappings` call: the bridge state after the
call, the channel lists put into the `PART`/`JOIN` raw commands (absent
on a first load, when no commands are sent), and the returned error. -/
structure SetMappingsResult where
  state : BridgeState
  parted : Option (List String)
  joined : Option (List String)
  err : Option String
deriving DecidableEq, Repr

/-- Go `(*Bridge).SetChannelMappings` (`bridge.go:181-284`): parse the
table, fail on duplicate channels before touching the store, otherwise
replace `b.mappings`/`b.ircChannelKeys`, and on a reconfiguration
(`oldMappings != nil`) PART the removed mappings' IRC channels that are
not also IRC channels of added mappings, and JOIN the added mappings'
IRC channels. -/
def setChannelMappings (st : BridgeState) (entries : List (String × String)) :
    SetMappingsResult :=
  let mappings := parsedMappings entries
  if hasDuplicateChannels mappings then
    ⟨st, none, none, some "channel_mappings contains duplicate entries"⟩
  else
    let st' : BridgeState :=
      ⟨if mappings.isEmpty then none else some mappings, parsedKeys entries⟩
    match st.mappings with
    | none => ⟨st', none, none, none⟩
    | some old =>
      let newMappings := mappings.filter (fun m => decide (m ∉ old))
      let removedMappings := old.filter (fun m => decide (m ∉ mappings))
      let rmChannels :=
        (removedMappings.filter
          (fun m => decide (¬ ∃ c ∈ newMappings, c.ircChannel = m.ircChannel))).map
          (·.ircChannel)
      let joinChannels := newMappings.map (·.ircChannel)
      ⟨st', some rmChannels, some joinChannels, none⟩

/-- Go `(*Bridge).GetMappingByIRC` (`bridge.go:392-399`): first stored
mapping whose IRC channel matches case-insensitively (`strings.EqualFold`). -/
def getMappingByIRC (st : BridgeState) (channel : String) : Option Mapping :=
  (st.mappings.getD []).find? (fun m => eqFold m.ircChannel channel)

/-- Go `(*Bridge).GetMappingByDiscord` (`bridge.go:403-410`): first stored
mapping whose Discord channel matches exactly. -/
def getMappingByDiscord (st : BridgeState) (channel : String) : Option Mapping :=
  (st.mappings.getD []).find? (fun m => m.discordChannel == channel)

/-- The data-model invariant stated by the spec for the mapping set:
IRC channel names are unique up to case and Discord channel ids are
unique exactly. -/
def mappingSetUniqueCI (ms : List Mapping) : Prop :=
  ms.Pairwise (fun a b =>
    eqFold a.ircChannel b.ircChannel = false ∧ a.discordChannel ≠ b.discordChannel)

lemma eqFold_refl (a : String) : eqFold a a = true := by simp [eqFold]

lemma ne_of_eqFold_false {a b : String} (h : eqFold a b = false) : a ≠ b := by
  intro e
  subst e
  rw [eqFold_refl] at h
  cases h

lemma eqFold_false_symm {a b : String} (h : eqFold a b = false) : eqFold b a = false := by
  simp only [eqFold, beq_eq_false_iff_ne, ne_eq] at h ⊢
  exact fun e => h e.symm

lemma hasDuplicateChannels_eq_false_iff (ms : List Mapping) :
    hasDuplicateChannels ms = false ↔
      ms.Pairwise (fun a b =>
        a.discordChannel ≠ b.discordChannel ∧ a.ircChannel ≠ b.ircChannel) := by
  induction ms with
  | nil => simp [hasDuplicateChannels]
  | cons m rest ih =>
    simp only [hasDuplicateChannels, conflictsWith, Bool.or_eq_false_iff,
      List.any_eq_false, Bool.or_eq_true, beq_iff_eq, not_or, ne_eq,
      List.pairwise_cons, ih]

lemma setChannelMappings_state_of_success (st : BridgeState)
    (entries : List (String × String))
    (h : hasDuplicateChannels (parsedMappings entries) = false) :
    (setChannelMappings st entries).state.mappings.getD [] = parsedMappings entries ∧
    (setChannelMappings st entries).err = none := by
  unfold setChannelMappings
  simp only [h, Bool.false_eq_true, if_false]
  cases hm : st.mappings with
  | none =>
    by_cases he : (parsedMappings entries).isEmpty
    · simp_all [List.isEmpty_iff]
    · simp_all
  | some old =>
    by_cases he : (parsedMappings entries).isEmpty
    · simp_all [List.isEmpty_iff]
    · simp_all

lemma setChannelMappings_of_dup (st : BridgeState) (entries : List (String × String))
    (h : hasDuplicateChannels (parsedMappings entries) = true) :
    (setChannelMappings st entries).err =
      some "channel_mappings contains duplicate entries" ∧
    (setChannelMappings st entries).state = st := by
  unfold setChannelMappings
  simp [h]

lemma find?_eq_some_unique {α : Type} (p : α → Bool) :
    ∀ (l : List α) (x : α), x ∈ l → p x = true → (∀ y ∈ l, p y = true → y = x) →
      l.find? p = some x := by
  intro l
  induction l with
  | nil => intro x hx; cases hx
  | cons a t ih =>
    intro x hx hpx huniq
    by_cases hpa : p a = true
    · have hax : a = x := huniq a (List.mem_cons_self a t) hpa
      rw [List.find?_cons_of_pos _ hpa, hax]
    · have hax : x ≠ a := fun e => hpa (e ▸ hpx)
      have hx' : x ∈ t := by
        rcases List.mem_cons.mp hx with h | h
        · exact absurd h hax
        · exact h
      rw [List.find?_cons_of_neg _ (by simpa using hpa)]
      exact ih x hx' hpx (fun y hy => huniq y (List.mem_cons_of_mem _ hy))

/-- C1: if the parsed entries of the input table contain some IRC channel
or some Discord channel id more than once, `SetChannelMappings` returns
the duplicate-mapping error and the stored mapping list and channel-key
table are exactly what they were before the call. -/
theorem setChannelMappings_duplicate_atomic (st : BridgeState)
    (entries : List (String × String))
    (h : hasDuplicateChannels (parsedMappings entries) = true) :
    (setChannelMappings st entries).err =
      some "channel_mappings contains duplicate entries" ∧
    (setChannelMappings st entries).state = st :=
  setChannelMappings_of_dup st entries h

/-- Witness for C1 at a concrete store and table: `"#chan"` appears as the
IRC channel of two parsed entries, the call errors, and the previously
stored mapping and key survive unchanged. -/
theorem setChannelMappings_duplicate_atomic_witness :
    hasDuplicateChannels
      (parsedMappings [("#chan", "100"), ("#chan key", "200")]) = true ∧
    ((setChannelMappings ⟨some [⟨"900", "#old"⟩], [("#old", "k")]⟩
        [("#chan", "100"), ("#chan key", "200")]).err =
      some "channel_mappings contains duplicate entries" ∧
     (setChannelMappings ⟨some [⟨"900", "#old"⟩], [("#old", "k")]⟩
        [("#chan", "100"), ("#chan key", "200")]).state =
      ⟨some [⟨"900", "#old"⟩], [("#old", "k")]⟩) :=
  ⟨by decide, setChannelMappings_duplicate_atomic _ _ (by decide)⟩

/-- C2: on a successful reconfiguration (previous mapping list present),
the PARTed channels are exactly the IRC channels of removed mappings
(in the old list, gone from the new one) that are not the IRC channel of
any newly added mapping, and the JOINed channels are exactly the IRC
channels of the newly added mappings. -/
theorem setChannelMappings_reconfigure_part_join (st : BridgeState)
    (entries : List (String × String)) (old : List Mapping)
    (hold : st.mappings = some old)
    (hnd : hasDuplicateChannels (parsedMappings entries) = false) :
    (setChannelMappings st entries).err = none ∧
    ∃ ps js, (setChannelMappings st entries).parted = some ps ∧
      (setChannelMappings st entries).joined = some js ∧
      (∀ ch, ch ∈ ps ↔
        (∃ m ∈ old, m ∉ parsedMappings entries ∧ m.ircChannel = ch) ∧
        ¬ ∃ m' ∈ parsedMappings entries, m' ∉ old ∧ m'.ircChannel = ch) ∧
      (∀ ch, ch ∈ js ↔ ∃ m' ∈ parsedMappings entries, m' ∉ old ∧ m'.ircChannel = ch) := by
  unfold setChannelMappings
  simp only [hold, hnd, Bool.false_eq_true, if_false]
  refine ⟨trivial, _, _, rfl, rfl, fun ch => ?_, fun ch => ?_⟩
  · simp only [List.mem_map, List.mem_filter, decide_eq_true_eq]
    constructor
    · rintro ⟨m, ⟨⟨hmo, hmnp⟩, hnone⟩, rfl⟩
      exact ⟨⟨m, hmo, hmnp, rfl⟩, fun ⟨m', hm'⟩ =>
        hnone ⟨m', ⟨hm'.1, hm'.2.1⟩, hm'.2.2⟩⟩
    · rintro ⟨⟨m, hmo, hmnp, rfl⟩, hno⟩
      exact ⟨m, ⟨⟨hmo, hmnp⟩, fun ⟨m', hm'⟩ => hno ⟨m', hm'.1.1, hm'.1.2, hm'.2⟩⟩, rfl⟩
  · simp only [List.mem_map, List.mem_filter, decide_eq_true_eq]
    constructor
    · rintro ⟨m, ⟨hmp, hmno⟩, rfl⟩
      exact ⟨m, hmp, hmno, rfl⟩
    · rintro ⟨m, hmp, hmno, rfl⟩
      exact ⟨m, ⟨hmp, hmno⟩, rfl⟩

/-- Witness for C2: reconfiguring from `{#a→X, #b→Y}` to `{#b→Y, #c→Z}`
emits a PART for `#a` only and a JOIN for `#c` only. -/
theorem setChannelMappings_reconfigure_part_join_witness :
    (BridgeState.mk (some [⟨"X", "#a"⟩, ⟨"Y", "#b"⟩]) []).mappings =
        some [⟨"X", "#a"⟩, ⟨"Y", "#b"⟩] ∧
    hasDuplicateChannels (parsedMappings [("#b", "Y"), ("#c", "Z")]) = false ∧
    ((setChannelMappings ⟨some [⟨"X", "#a"⟩, ⟨"Y", "#b"⟩], []⟩
        [("#b", "Y"), ("#c", "Z")]).err = none ∧
     ∃ ps js,
      (setChannelMappings ⟨some [⟨"X", "#a"⟩, ⟨"Y", "#b"⟩], []⟩
        [("#b", "Y"), ("#c", "Z")]).parted = some ps ∧
      (setChannelMappings ⟨some [⟨"X", "#a"⟩, ⟨"Y", "#b"⟩], []⟩
        [("#b", "Y"), ("#c", "Z")]).joined = some js ∧
      (∀ ch, ch ∈ ps ↔
        (∃ m ∈ [Mapping.mk "X" "#a", Mapping.mk "Y" "#b"],
          m ∉ parsedMappings [("#b", "Y"), ("#c", "Z")] ∧ m.ircChannel = ch) ∧
        ¬ ∃ m' ∈ parsedMappings [("#b", "Y"), ("#c", "Z")],
          m' ∉ [Mapping.mk "X" "#a", Mapping.mk "Y" "#b"] ∧ m'.ircChannel = ch) ∧
      (∀ ch, ch ∈ js ↔
        ∃ m' ∈ parsedMappings [("#b", "Y"), ("#c", "Z")],
          m' ∉ [Mapping.mk "X" "#a", Mapping.mk "Y" "#b"] ∧ m'.ircChannel = ch)) ∧
    (setChannelMappings ⟨some [⟨"X", "#a"⟩, ⟨"Y", "#b"⟩], []⟩
        [("#b", "Y"), ("#c", "Z")]).parted = some ["#a"] ∧
    (setChannelMappings ⟨some [⟨"X", "#a"⟩, ⟨"Y", "#b"⟩], []⟩
        [("#b", "Y"), ("#c", "Z")]).joined = some ["#c"] :=
  ⟨rfl, by decide,
   setChannelMappings_reconfigure_part_join _ _ _ rfl (by decide),
   by decide, by decide⟩

/-- C6: if the parsed mapping table has pairwise case-insensitively
distinct IRC channels and pairwise distinct Discord channel ids, the call
succeeds and the two lookups invert storage: each stored mapping is found
by its IRC channel (case-insensitively) and by its Discord id (exactly). -/
theorem setMappings_lookup_inverse (st : BridgeState)
    (entries : List (String × String))
    (hIRC : (parsedMappings entries).Pairwise
      (fun a b => eqFold a.ircChannel b.ircChannel = false))
    (hDis : (parsedMappings entries).Pairwise
      (fun a b => a.discordChannel ≠ b.discordChannel)) :
    (setChannelMappings st entries).err = none ∧
    ∀ m ∈ parsedMappings entries,
      getMappingByIRC (setChannelMappings st entries).state m.ircChannel = some m ∧
      getMappingByDiscord (setChannelMappings st entries).state m.discordChannel =
        some m := by
  have hnd : hasDuplicateChannels (parsedMappings entries) = false := by
    rw [hasDuplicateChannels_eq_false_iff]
    exact (hDis.and hIRC).imp (fun h => ⟨h.1, ne_of_eqFold_false h.2⟩)
  obtain ⟨hstate, herr⟩ := setChannelMappings_state_of_success st entries hnd
  refine ⟨herr, fun m hm => ⟨?_, ?_⟩⟩
  · unfold getMappingByIRC
    rw [hstate]
    refine find?_eq_some_unique _ _ m hm (eqFold_refl _) ?_
    intro y hy hf
    by_contra hne
    have hsym : Symmetric (fun a b : Mapping => eqFold a.ircChannel b.ircChannel = false) :=
      fun a b h => eqFold_false_symm h
    have := hIRC.forall hsym hy hm hne
    rw [this] at hf
    cases hf
  · unfold getMappingByDiscord
    rw [hstate]
    refine find?_eq_some_unique _ _ m hm (by simp) ?_
    intro y hy hf
    by_contra hne
    have hsym : Symmetric (fun a b : Mapping => a.discordChannel ≠ b.discordChannel) :=
      fun a b h => h.symm
    exact hDis.forall hsym hy hm hne (by simpa using hf)

/-- Witness for C6 at a concrete duplicate-free table with a keyed entry. -/
theorem setMappings_lookup_inverse_witness :
    (parsedMappings [("#Chan key", "100"), ("#other", "200")]).Pairwise
      (fun a b => eqFold a.ircChannel b.ircChannel = false) ∧
    (parsedMappings [("#Chan key", "100"), ("#other", "200")]).Pairwise
      (fun a b => a.discordChannel ≠ b.discordChannel) ∧
    ((setChannelMappings ⟨none, []⟩ [("#Chan key", "100"), ("#other", "200")]).err =
        none ∧
     ∀ m ∈ parsedMappings [("#Chan key", "100"), ("#other", "200")],
      getMappingByIRC
        (setChannelMappings ⟨none, []⟩
          [("#Chan key", "100"), ("#other", "200")]).state m.ircChannel = some m ∧
      getMappingByDiscord
        (setChannelMappings ⟨none, []⟩
          [("#Chan key", "100"), ("#other", "200")]).state m.discordChannel = some m) :=
  ⟨by decide, by decide, setMappings_lookup_inverse _ _ (by decide) (by decide)⟩

/-- C7 counterexample: the duplicate check of `SetChannelMappings`
compares IRC channels case-sensitively, so loading `{#A→1, #a→2}`
succeeds, yet the stored set violates the case-insensitive uniqueness
invariant claimed for the data model. -/
theorem setChannelMappings_ci_invariant_counterexample :
    (setChannelMappings ⟨none, []⟩ [("#A", "1"), ("#a", "2")]).err = none ∧
    ¬ mappingSetUniqueCI
      ((setChannelMappings ⟨none, []⟩
        [("#A", "1"), ("#a", "2")]).state.mappings.getD []) := by
  constructor
  · decide
  · rw [mappingSetUniqueCI]
    decide

/-- C7 amended: after every successful `SetChannelMappings` call the
stored mapping set has pairwise distinct IRC channels under exact
(case-sensitive) comparison and pairwise distinct Discord channel ids. -/
theorem setChannelMappings_success_unique_exact (st : BridgeState)
    (entries : List (String × String))
    (h : (setChannelMappings st entries).err = none) :
    ((setChannelMappings st entries).state.mappings.getD []).Pairwise
      (fun a b => a.discordChannel ≠ b.discordChannel ∧ a.ircChannel ≠ b.ircChannel) := by
  have hnd : hasDuplicateChannels (parsedMappings entries) = false := by
    by_contra hdup
    rw [Bool.not_eq_false] at hdup
    have := (setChannelMappings_of_dup st entries hdup).1
    rw [this] at h
    cases h
  rw [(setChannelMappings_state_of_success st entries hnd).1]
  exact (hasDuplicateChannels_eq_false_iff _).mp hnd

/-- Witness for C7's amended statement at a concrete successful call. -/
theorem setChannelMappings_success_unique_exact_witness :
    (setChannelMappings ⟨none, []⟩ [("#A", "1"), ("#a", "2")]).err = none ∧
    ((setChannelMappings ⟨none, []⟩
        [("#A", "1"), ("#a", "2")]).state.mappings.getD []).Pairwise
      (fun a b => a.discordChannel ≠ b.discordChannel ∧ a.ircChannel ≠ b.ircChannel) :=
  ⟨by decide, setChannelMappings_success_unique_exact _ _ (by decide)⟩

/-! ## The IRC→Discord content pipeline of the dispatch loop

Message contents are modelled as `List Char`. -/

/-- Go `strings.Split(l, sep)` for a one-character separator, on character
lists. -/
def splitCharAux (sep : Char) (acc : List Char) : List Char → List (List Char)
  | [] => [acc.reverse]
  | c :: rest =>
    if c = sep then acc.reverse :: splitCharAux sep [] rest
    else splitCharAux sep (c :: acc) rest

def splitChar (sep : Char) (l : List Char) : List (List Char) := splitCharAux sep [] l

/-- U+200B ZERO WIDTH SPACE, the boundary marker of `bridge.go:453`. -/
def zwsp : Char := Char.ofNat 0x200B

/-- The white-space class of Go's `strings.TrimSpace` (`unicode.IsSpace`):
ASCII spacing characters, NEL, NBSP and the Unicode space separators. -/
def isGoSpace (c : Char) : Bool :=
  let n := c.toNat
  n == 32 || (9 ≤ n && n ≤ 13) || n == 0x85 || n == 0xA0 || n == 0x1680 ||
  (0x2000 ≤ n && n ≤ 0x200A) || n == 0x2028 || n == 0x2029 || n == 0x202F ||
  n == 0x205F || n == 0x3000

/-- Go `strings.TrimSpace`: drop white space from both ends. -/
def trimSpace (s : List Char) : List Char :=
  ((s.dropWhile isGoSpace).reverse.dropWhile isGoSpace).reverse

/-- The zero-width-space wrapping step of the dispatch loop
(`bridge.go:452-454`): contents that are empty or differ from their
trimmed form are surrounded with U+200B. -/
def wrapContent (content : List Char) : List Char :=
  if content = [] ∨ trimSpace content ≠ content then zwsp :: content ++ [zwsp]
  else content

/-- C8: the outbound content is wrapped in a leading and a trailing
zero-width space exactly when it is empty or differs from its
white-space-trimmed form, is left unchanged otherwise, and in particular
three spaces become `"​   ​"`. -/
theorem wrapContent_boundary_iff (content : List Char) :
    (wrapContent content = zwsp :: content ++ [zwsp] ↔
      content = [] ∨ trimSpace content ≠ content) ∧
    (content ≠ [] → trimSpace content = content → wrapContent content = content) ∧
    wrapContent [' ', ' ', ' '] = [zwsp, ' ', ' ', ' ', zwsp] := by
  refine ⟨⟨fun hw => ?_, fun hc => by rw [wrapContent, if_pos hc]⟩,
    fun hne htrim => ?_, by decide⟩
  · by_contra hc
    rw [wrapContent, if_neg hc] at hw
    have hlen := congrArg List.length hw
    simp only [List.length_cons, List.length_append, List.length_nil] at hlen
    omega
  · rw [wrapContent, if_neg]
    push_neg
    exact ⟨hne, htrim⟩

/-- Witness for C8, exercising both the wrapped and the unwrapped case
at concrete contents. -/
theorem wrapContent_boundary_iff_witness :
    ("a b".data ≠ [] ∧ trimSpace "a b".data = "a b".data ∧
      wrapContent "a b".data = "a b".data) ∧
    wrapContent "".data = [zwsp, zwsp] :=
  ⟨⟨by decide, by decide,
    (wrapContent_boundary_iff "a b".data).2.1 (by decide) (by decide)⟩, by decide⟩

/-- A guild emoji as used by the dispatch loop: the fields `Name`, `ID`
and `Animated` of `discordgo.Emoji`. -/
structure Emoji where
  name : List Char
  id : List Char
  animated : Bool
deriving DecidableEq, Repr

/-- The character class of `emojiRegex = (:[a-zA-Z_-]+:)` (`bridge.go:412`). -/
def emojiWordChar (c : Char) : Bool :=
  (65 ≤ c.toNat && c.toNat ≤ 90) || (97 ≤ c.toNat && c.toNat ≤ 122) ||
  c == '_' || c == '-'

/-- Go `strings.ToLower` on the ASCII emoji names. -/
def lowerChars (l : List Char) : List Char := l.map Char.toLower

/-- Go map lookup `b.emoji[key]` on an association-list model of the
emoji cache. -/
def lookupEmoji (cache : List (List Char × Emoji)) (key : List Char) : Option Emoji :=
  match cache with
  | [] => none
  | (k, e) :: rest => if k = key then some e else lookupEmoji rest key

/-- The replacement function of `bridge.go:457-469` applied to a matched
token `":" ++ name ++ ":"`: a cache hit under the lower-cased name yields
`<:Name:ID>` (with an `a` prefix when animated), a miss returns the token
verbatim. -/
def replaceEmojiToken (cache : List (List Char × Emoji)) (name : List Char) : List Char :=
  match lookupEmoji cache (lowerChars name) with
  | none => ':' :: (name ++ [':'])
  | some e =>
    let s := ':' :: (e.name ++ ':' :: e.id)
    let s := if e.animated then 'a' :: s else s
    '<' :: (s ++ ['>'])

lemma length_dropWhile_le {α : Type} (p : α → Bool) (l : List α) :
    (l.dropWhile p).length ≤ l.length := by
  induction l with
  | nil => simp
  | cons a t ih =>
    rw [List.dropWhile_cons]
    split
    · simp only [List.length_cons]
      omega
    · simp

/-- Go `emojiRegex.ReplaceAllStringFunc` (`bridge.go:457`): scan left to
right; at a `':'` followed by a non-empty run of word characters and a
closing `':'`, replace the token and continue after it; otherwise emit
the character and continue. -/
def replaceEmoji (cache : List (List Char × Emoji)) : List Char → List Char
  | [] => []
  | c :: rest =>
    if c = ':' ∧ rest.takeWhile emojiWordChar ≠ [] ∧
        (rest.dropWhile emojiWordChar).head? = some ':' then
      replaceEmojiToken cache (rest.takeWhile emojiWordChar) ++
        replaceEmoji cache (rest.dropWhile emojiWordChar).tail
    else
      c :: replaceEmoji cache rest
termination_by l => l.length
decreasing_by
  · have h1 : (rest.dropWhile emojiWordChar).length ≤ rest.length :=
      length_dropWhile_le _ _
    have h3 : (rest.dropWhile emojiWordChar).tail.length =
        (rest.dropWhile emojiWordChar).length - 1 := List.length_tail _
    simp only [List.length_cons]
    omega
  · simp only [List.length_cons]
    omega

lemma takeWhile_append_all {α : Type} (p : α → Bool) (l : List α) (x : α) (r : List α)
    (h : l.all p = true) (hx : p x = false) :
    (l ++ x :: r).takeWhile p = l ∧ (l ++ x :: r).dropWhile p = x :: r := by
  induction l with
  | nil => simp [List.takeWhile, List.dropWhile, hx]
  | cons a t ih =>
    simp only [List.all_cons, Bool.and_eq_true] at h
    have := ih h.2
    simp [List.takeWhile_cons, List.dropWhile_cons, h.1, this.1, this.2]

/-- C9: a token `":" ++ name ++ ":"` with `name` matching `[a-zA-Z_-]+`
is replaced by `<:Name:ID>` markup (an `a` before the name when the
cached entry is animated) exactly when the lower-cased name has a cache
entry, is kept verbatim otherwise, and scanning continues after the
token. -/
theorem replaceEmoji_token (cache : List (List Char × Emoji)) (name tail : List Char)
    (hne : name ≠ []) (hcls : name.all emojiWordChar = true) :
    replaceEmoji cache (':' :: (name ++ ':' :: tail)) =
      (match lookupEmoji cache (lowerChars name) with
       | none => ':' :: (name ++ [':'])
       | some e =>
         '<' :: ((if e.animated then 'a' :: (':' :: (e.name ++ ':' :: e.id))
                  else ':' :: (e.name ++ ':' :: e.id)) ++ ['>'])) ++
      replaceEmoji cache tail := by
  obtain ⟨htake, hdrop⟩ :=
    takeWhile_append_all emojiWordChar name ':' tail hcls (by decide)
  rw [replaceEmoji]
  rw [if_pos (by rw [htake, hdrop]; exact ⟨rfl, hne, rfl⟩)]
  rw [htake, hdrop]
  simp only [List.tail_cons]
  cases hlook : lookupEmoji cache (lowerChars name) with
  | none => simp [replaceEmojiToken, hlook]
  | some e => simp [replaceEmojiToken, hlook]

lemma replaceEmoji_nil (cache : List (List Char × Emoji)) :
    replaceEmoji cache [] = [] := by
  rw [replaceEmoji]

lemma replaceEmoji_colonless_run (cache : List (List Char × Emoji))
    (pre rest : List Char) (h : ∀ c ∈ pre, c ≠ ':') :
    replaceEmoji cache (pre ++ rest) = pre ++ replaceEmoji cache rest := by
  induction pre with
  | nil => simp
  | cons c t ih =>
    rw [List.cons_append, replaceEmoji,
      if_neg (fun hc => h c (List.mem_cons_self c t) hc.1)]
    rw [ih (fun x hx => h x (List.mem_cons_of_mem _ hx))]
    simp

/-- Witness for C9: `"hello :smile: world"` with a cache holding
`smile → {id 42, not animated}` yields `"hello <:smile:42> world"`, via
the token theorem applied at the `:smile:` occurrence. -/
theorem replaceEmoji_token_witness :
    ("smile".data ≠ [] ∧ "smile".data.all emojiWordChar = true) ∧
    replaceEmoji [("smile".data, ⟨"smile".data, "42".data, false⟩)]
      "hello :smile: world".data = "hello <:smile:42> world".data := by
  refine ⟨⟨by decide, by decide⟩, ?_⟩
  have hdecomp : "hello :smile: world".data =
      "hello ".data ++ (':' :: ("smile".data ++ ':' :: " world".data)) := by decide
  rw [hdecomp, replaceEmoji_colonless_run _ _ _ (by decide),
    replaceEmoji_token _ "smile".data " world".data (by decide) (by decide)]
  have hworld : " world".data = " world".data ++ ([] : List Char) := by simp
  rw [hworld, replaceEmoji_colonless_run _ _ _ (by decide), replaceEmoji_nil]
  decide

/-! ## Nickname sanitisation (`sanitiseNickname`, identical in both
`IRCPuppeteer` revisions)

The function is parametrised by the transliteration `ud` standing for the
external `unidecode.Unidecode`; theorems that need it assume only that it
is the identity on strings of legal (ASCII) nickname characters. -/

/-- Go `ircnick.IsDigit`. Modelled from the spec: the `irc/nick` package of
this repository is not under `src/`. -/
def isDigitChar (c : Char) : Bool := 48 ≤ c.toNat && c.toNat ≤ 57

/-- The legal nickname alphabet, `ircnick.IsNickChar(c) &&
!ircnick.IsFakeNickChar(c)`. Modelled from the spec: the `irc/nick`
package of this repository is not under `src/`; the spec's "legal
nickname alphabet" is taken as the classic IRC nick grammar — ASCII
letters, digits, hyphen, underscore and the bracket/caret/pipe/backtick
specials. -/
def isLegalNickChar (c : Char) : Bool :=
  let n := c.toNat
  (97 ≤ n && n ≤ 122) || (65 ≤ n && n ≤ 90) || (48 ≤ n && n ≤ 57) ||
  n == 45 || n == 95 || n == 91 || n == 93 || n == 92 || n == 94 ||
  n == 123 || n == 125 || n == 124 || n == 96

/-- Go `if newnick := unidecode.Unidecode(nick); newnick != "" { nick = newnick }`. -/
def udStage (ud : List Char → List Char) (nick : List Char) : List Char :=
  if ud nick = [] then nick else ud nick

/-- Go `if nick[0] == '-' { nick = "_" + nick }`. -/
def hyphenStage (l : List Char) : List Char :=
  if l.head? = some '-' then '_' :: l else l

/-- Go `ircnick.IsDigit(nick[0])` on the model (`false` on the empty string,
which the caller has excluded). -/
def headIsDigit (l : List Char) : Bool :=
  match l.head? with
  | some c => isDigitChar c
  | none => false

/-- Go `if ircnick.IsDigit(nick[0]) { nick = "_" + nick }`. -/
def digitStage (l : List Char) : List Char :=
  if headIsDigit l then '_' :: l else l

lemma hyphenStage_cons (c : Char) (t : List Char) :
    hyphenStage (c :: t) = if c = '-' then '_' :: c :: t else c :: t := by
  by_cases hc : c = '-'
  · subst hc
    rfl
  · rw [hyphenStage, if_neg (by simpa using hc), if_neg hc]

lemma digitStage_cons (c : Char) (t : List Char) :
    digitStage (c :: t) = if isDigitChar c then '_' :: c :: t else c :: t := rfl

/-- The replacement loop: every character outside the legal alphabet
becomes a space. -/
def spaceStage (l : List Char) : List Char :=
  l.map (fun c => if !isLegalNickChar c then ' ' else c)

/-- Go `regexp.MustCompile(" +").ReplaceAllLiteral(newNick, "_")`: collapse
each maximal run of spaces into one underscore.  The boolean carries
whether the previous character was part of a space run. -/
def collapseSpacesAux : Bool → List Char → List Char
  | _, [] => []
  | prevSpace, c :: rest =>
    if c = ' ' then
      if prevSpace then collapseSpacesAux true rest
      else '_' :: collapseSpacesAux true rest
    else c :: collapseSpacesAux false rest

def collapseSpaces (l : List Char) : List Char := collapseSpacesAux false l

/-- Go `sanitiseNickname` (`irc_puppeteer.go:81-114` and identically in the
other revision): empty input yields `"_"`; otherwise transliterate
(keeping the original if that empties the string), guard a leading
hyphen or digit with an underscore, space out illegal characters and
collapse space runs to underscores. -/
def sanitiseNickname (ud : List Char → List Char) (nick : List Char) : List Char :=
  match nick with
  | [] => ['_']
  | _ :: _ =>
    collapseSpaces (spaceStage (digitStage (hyphenStage (udStage ud nick))))

lemma collapseSpacesAux_ne_nil {l : List Char} (hne : l ≠ []) :
    collapseSpacesAux false l ≠ [] := by
  match l with
  | [] => exact absurd rfl hne
  | c :: rest =>
    rw [collapseSpacesAux]
    by_cases hc : c = ' ' <;> simp [hc]

lemma collapseSpacesAux_all_legal :
    ∀ (l : List Char) (b : Bool),
      (∀ c ∈ l, c = ' ' ∨ isLegalNickChar c = true) →
      (collapseSpacesAux b l).all isLegalNickChar = true := by
  intro l
  induction l with
  | nil => intro b _; rfl
  | cons c rest ih =>
    intro b h
    have hrest := fun x hx => h x (List.mem_cons_of_mem _ hx)
    rw [collapseSpacesAux]
    by_cases hc : c = ' '
    · rw [if_pos hc]
      cases b with
      | true => exact ih true hrest
      | false =>
        rw [if_neg (by decide : ¬ (false = true))]
        simp only [List.all_cons, Bool.and_eq_true]
        exact ⟨by decide, ih true hrest⟩
    · rw [if_neg hc]
      simp only [List.all_cons, Bool.and_eq_true]
      have := (h c (List.mem_cons_self c rest)).resolve_left hc
      exact ⟨this, ih false hrest⟩

lemma collapseSpacesAux_no_space_id :
    ∀ (l : List Char) (b : Bool), (∀ c ∈ l, c ≠ ' ') → collapseSpacesAux b l = l := by
  intro l
  induction l with
  | nil => intro b _; rfl
  | cons c rest ih =>
    intro b h
    rw [collapseSpacesAux, if_neg (h c (List.mem_cons_self c rest))]
    rw [ih false (fun x hx => h x (List.mem_cons_of_mem _ hx))]

/-- The output of a sanitisation pass: non-empty, made of legal
characters only, and its head is neither a hyphen nor a digit. -/
lemma sanitiseNickname_out (ud : List Char → List Char) (nick : List Char) :
    sanitiseNickname ud nick ≠ [] ∧
    (sanitiseNickname ud nick).all isLegalNickChar = true ∧
    ∀ c t, sanitiseNickname ud nick = c :: t → c ≠ '-' ∧ isDigitChar c = false := by
  rcases nick with _ | ⟨a, l⟩
  · have h0 : sanitiseNickname ud [] = ['_'] := rfl
    refine ⟨by rw [h0]; decide, by rw [h0]; decide, fun c t hct => ?_⟩
    rw [h0] at hct
    cases hct
    exact ⟨by decide, by decide⟩
  · rw [sanitiseNickname]
    have h1 : udStage ud (a :: l) ≠ [] := by
      rw [udStage]
      by_cases hu : ud (a :: l) = [] <;> simp [hu]
    have h2 : hyphenStage (udStage ud (a :: l)) ≠ [] := by
      rcases hu : udStage ud (a :: l) with _ | ⟨u, us⟩
      · exact absurd hu h1
      · rw [hyphenStage_cons]
        by_cases hc : u = '-' <;> simp [hc]
    have h3 : digitStage (hyphenStage (udStage ud (a :: l))) ≠ [] := by
      rcases hh : hyphenStage (udStage ud (a :: l)) with _ | ⟨v, vs⟩
      · exact absurd hh h2
      · rw [digitStage_cons]
        by_cases hd : isDigitChar v = true <;> simp [hd]
    -- head of the digit stage is neither '-' nor a digit
    have hhead : ∀ c t, digitStage (hyphenStage (udStage ud (a :: l))) = c :: t →
        c ≠ '-' ∧ isDigitChar c = false := by
      intro c t hct
      rcases hu : udStage ud (a :: l) with _ | ⟨u, us⟩
      · exact absurd hu h1
      · rw [hu, hyphenStage_cons] at hct
        by_cases hud : u = '-'
        · rw [if_pos hud, digitStage_cons,
            if_neg (by decide : ¬ isDigitChar '_' = true)] at hct
          injection hct with hc' _
          exact ⟨hc' ▸ (by decide), hc' ▸ (by decide)⟩
        · rw [if_neg hud, digitStage_cons] at hct
          by_cases hd : isDigitChar u = true
          · rw [if_pos hd] at hct
            injection hct with hc' _
            exact ⟨hc' ▸ (by decide), hc' ▸ (by decide)⟩
          · rw [if_neg hd] at hct
            injection hct with hc' _
            exact ⟨hc' ▸ hud, hc' ▸ (by simpa using hd)⟩
    -- the space stage maps everything to legal characters or spaces
    have hmap : ∀ c ∈ spaceStage (digitStage (hyphenStage (udStage ud (a :: l)))),
        c = ' ' ∨ isLegalNickChar c = true := by
      intro c hc
      rw [spaceStage] at hc
      obtain ⟨x, _, hx⟩ := List.mem_map.mp hc
      by_cases hleg : isLegalNickChar x = true
      · right
        rw [← hx]
        simp [hleg]
      · left
        rw [← hx]
        simp [hleg]
    have hne4 : spaceStage (digitStage (hyphenStage (udStage ud (a :: l)))) ≠ [] := by
      rw [spaceStage]
      simp only [ne_eq, List.map_eq_nil_iff]
      exact h3
    refine ⟨collapseSpacesAux_ne_nil hne4, collapseSpacesAux_all_legal _ false hmap, ?_⟩
    -- head of the collapsed result
    intro c t hct
    rcases hd : digitStage (hyphenStage (udStage ud (a :: l))) with _ | ⟨d, ds⟩
    · exact absurd hd h3
    have hs : spaceStage (digitStage (hyphenStage (udStage ud (a :: l)))) =
        (if !isLegalNickChar d then ' ' else d) :: spaceStage ds := by
      rw [hd]
      rfl
    rw [hs] at hct
    by_cases hleg : isLegalNickChar d = true
    · have hdsp : d ≠ ' ' := by
        intro he
        rw [he] at hleg
        exact absurd hleg (by decide)
      have hif : (if !isLegalNickChar d then ' ' else d) = d := by simp [hleg]
      rw [hif, collapseSpaces, collapseSpacesAux, if_neg hdsp] at hct
      injection hct with h1 _
      obtain ⟨hc1, hc2⟩ := hhead d ds hd
      exact ⟨h1 ▸ hc1, h1 ▸ hc2⟩
    · have hif : (if !isLegalNickChar d then ' ' else d) = ' ' := by simp [hleg]
      rw [hif] at hct
      have hred : collapseSpaces (' ' :: spaceStage ds) =
          '_' :: collapseSpacesAux true (spaceStage ds) := rfl
      rw [hred] at hct
      injection hct with h1 _
      refine ⟨h1 ▸ ?_, h1 ▸ ?_⟩ <;> decide

lemma ne_space_of_legal {x : Char} (h : isLegalNickChar x = true) : x ≠ ' ' := by
  intro he
  rw [he] at h
  exact absurd h (by decide)

lemma spaceStage_id (l : List Char) (h : l.all isLegalNickChar = true) :
    spaceStage l = l := by
  induction l with
  | nil => rfl
  | cons c t ih =>
    simp only [List.all_cons, Bool.and_eq_true] at h
    rw [spaceStage, List.map_cons]
    rw [show (if !isLegalNickChar c then ' ' else c) = c by simp [h.1]]
    rw [show (List.map (fun c => if !isLegalNickChar c then ' ' else c) t) =
      spaceStage t from rfl, ih h.2]

/-- A non-empty string of legal characters whose head is neither a hyphen
nor a digit passes `sanitiseNickname` unchanged, provided the
transliteration fixes legal-only strings. -/
lemma sanitiseNickname_fixed (ud : List Char → List Char)
    (hud : ∀ s, s.all isLegalNickChar = true → ud s = s)
    (s : List Char) (hne : s ≠ []) (hall : s.all isLegalNickChar = true)
    (hhead : ∀ c t, s = c :: t → c ≠ '-' ∧ isDigitChar c = false) :
    sanitiseNickname ud s = s := by
  match s with
  | [] => exact absurd rfl hne
  | c :: t =>
    obtain ⟨hc1, hc2⟩ := hhead c t rfl
    rw [sanitiseNickname]
    have hud' : udStage ud (c :: t) = c :: t := by
      rw [udStage, hud _ hall]
      simp
    have hhyp : hyphenStage (c :: t) = c :: t := by
      rw [hyphenStage_cons, if_neg hc1]
    have hdig : digitStage (c :: t) = c :: t := by
      rw [digitStage_cons, hc2]
      simp
    rw [hud', hhyp, hdig, spaceStage_id _ hall, collapseSpaces,
      collapseSpacesAux_no_space_id _ false
        (fun x hx => ne_space_of_legal (List.all_eq_true.mp hall x hx))]

/-- C4: for every transliteration that fixes legal-only strings and every
input, `sanitiseNickname` returns a non-empty string, is idempotent, and
maps the empty input to the single placeholder `"_"`. -/
theorem sanitiseNickname_idempotent_nonempty (ud : List Char → List Char)
    (hud : ∀ s, s.all isLegalNickChar = true → ud s = s) (nick : List Char) :
    sanitiseNickname ud nick ≠ [] ∧
    sanitiseNickname ud (sanitiseNickname ud nick) = sanitiseNickname ud nick ∧
    sanitiseNickname ud [] = ['_'] := by
  obtain ⟨hne, hall, hhead⟩ := sanitiseNickname_out ud nick
  exact ⟨hne, sanitiseNickname_fixed ud hud _ hne hall hhead, rfl⟩

/-- Witness for C4 with the identity transliteration on a nickname with
an illegal interior character and a leading digit. -/
theorem sanitiseNickname_idempotent_nonempty_witness :
    (∀ s : List Char, s.all isLegalNickChar = true → id s = s) ∧
    (sanitiseNickname id "1a b".data ≠ [] ∧
     sanitiseNickname id (sanitiseNickname id "1a b".data) =
       sanitiseNickname id "1a b".data ∧
     sanitiseNickname id [] = ['_']) :=
  ⟨fun _ _ => rfl, sanitiseNickname_idempotent_nonempty id (fun _ _ => rfl) _⟩

/-! ## The IRC puppeteer

The repository carries two revisions of the `IRCPuppeteer`: the current
one (whose `generateNickname` just appends the negotiated decoration and
whose `SendMessage` formats `<nick> line`) and an older collision-avoiding
one (namespace `CA`) whose `SendMessage` first consults the Discord
ignore set and whose `generateNickname` scans the guild roster.
`setupCaps`, `firstRune` and `IsUsingRelayMsg` are identical in both. -/

/-- A Discord user as consumed by the puppeteer: the `discordgo.User`
fields `ID`, `Username`, `Discriminator`, plus the bridge's `Nick`. -/
structure DiscordUser where
  id : List Char
  nick : List Char
  username : List Char
  discriminator : List Char
deriving DecidableEq, Repr

/-- The parts of a `DiscordMessage` consumed by `SendMessage`. -/
structure DiscordMessage where
  author : DiscordUser
  content : List Char
  isAction : Bool
deriving DecidableEq, Repr

/-- Outbound IRC deliveries issued by `SendMessage`: a raw command line
(`SendRawf`) or an ordinary chat line (`Privmsg`). -/
inductive IRCAction where
  | sendRaw (line : List Char)
  | privmsg (channel line : List Char)
deriving DecidableEq, Repr

def relaymsgCap : List Char := "draft/relaymsg".data

/-- Go map lookup `i.AvailableCaps[capName]` (missing key yields `""`). -/
def lookupCap (avail : List (List Char × List Char)) (key : List Char) : List Char :=
  match avail with
  | [] => []
  | (k, v) :: rest => if k = key then v else lookupCap rest key

/-- Go `firstRune`: the first character, or the sentinel `rune(0)` on the
empty string. -/
def firstRune (s : List Char) : Char :=
  match s with
  | [] => Char.ofNat 0
  | c :: _ => c

/-- Go `(*IRCPuppeteer).setupCaps`: on the first acknowledged
`draft/relaymsg` capability, set the username decoration from the
server's reserved separator characters (`"[d]"` when none were given,
separator + `"d"` otherwise); without the capability the decoration is
left as it was (empty at construction). -/
def setupCaps (acknowledged : List (List Char))
    (available : List (List Char × List Char)) (decoration : List Char) : List Char :=
  match acknowledged with
  | [] => decoration
  | capName :: rest =>
    if capName = relaymsgCap then
      let separator := firstRune (lookupCap available capName)
      if separator = Char.ofNat 0 then "[d]".data
      else [separator, 'd']
    else setupCaps rest available decoration

/-- Go `(*IRCPuppeteer).IsUsingRelayMsg`: the decoration is non-empty. -/
def isUsingRelayMsg (decoration : List Char) : Bool := decide (decoration ≠ [])

namespace P0

/-- Go `generateNickname` of the current revision: sanitise the username and
append the decoration. -/
def generateNickname (ud : List Char → List Char) (decoration : List Char)
    (user : DiscordUser) : List Char :=
  sanitiseNickname ud user.username ++ decoration

/-- Go `SendMessage` of the current revision: split the content on newlines;
with relaymsg, each line becomes a raw `RELAYMSG` directive (CTCP ACTION
framing when the message is an action), otherwise a `<nick> line`
chat message.  Only the part of the channel key before the first space is
used. -/
def sendMessage (ud : List Char → List Char) (decoration : List Char)
    (channel : List Char) (msg : DiscordMessage) : List IRCAction :=
  let authorNick := generateNickname ud decoration msg.author
  let chan := (splitChar ' ' channel).headD []
  (splitChar '\n' msg.content).map (fun line =>
    if isUsingRelayMsg decoration then
      if msg.isAction then
        IRCAction.sendRaw ("RELAYMSG ".data ++ chan ++ [' '] ++ authorNick ++
          " :".data ++ [Char.ofNat 1] ++ "ACTION ".data ++ line ++ [Char.ofNat 1])
      else
        IRCAction.sendRaw ("RELAYMSG ".data ++ chan ++ [' '] ++ authorNick ++
          " :".data ++ line)
    else
      IRCAction.privmsg chan ("<".data ++ authorNick ++ "> ".data ++ line))

end P0

/-- C5: negotiating `draft/relaymsg` with reserved separator `/` makes
the decoration `"/d"` and `generateNickname` of `"Bob"` is `"Bob/d"`;
without the capability the decoration stays empty, relay-spoofing is
disabled, and `"hello"` from Bob is delivered as the ordinary chat line
`"<Bob> hello"`. -/
theorem relaymsg_decoration_and_classic_render :
    setupCaps ["draft/relaymsg".data] [("draft/relaymsg".data, "/".data)] [] =
      "/d".data ∧
    P0.generateNickname id "/d".data ⟨"1".data, [], "Bob".data, "0".data⟩ =
      "Bob/d".data ∧
    setupCaps ["sasl".data] [("draft/relaymsg".data, "/".data)] [] = [] ∧
    isUsingRelayMsg [] = false ∧
    P0.sendMessage id [] "#chan".data
        ⟨⟨"1".data, [], "Bob".data, "0".data⟩, "hello".data, false⟩ =
      [IRCAction.privmsg "#chan".data "<Bob> hello".data] := by
  decide

namespace CA

/-- Go `(*IRCPuppeteer).ircIgnoredDiscord`: membership of the author's user
id in the configured `DiscordIgnores` set. -/
def ircIgnoredDiscord (ignores : List (List Char)) (user : List Char) : Bool :=
  decide (user ∈ ignores)

/-- Go `SendMessage` of the collision-avoiding revision
(`irc_puppeteer.go:188-228`): drop the message entirely when the author
is ignored; otherwise split on newlines and deliver each line as a
`RELAYMSG` directive or as a classic `<User#Discriminator> line` chat
message (with a zero-width space inserted after the username's first
character). -/
def sendMessage (ud : List Char → List Char) (decoration : List Char)
    (ignores : List (List Char)) (channel : List Char) (msg : DiscordMessage) :
    List IRCAction :=
  if ircIgnoredDiscord ignores msg.author.id then []
  else
    let chan := (splitChar ' ' channel).headD []
    (splitChar '\n' msg.content).map (fun line =>
      if isUsingRelayMsg decoration then
        if msg.isAction then
          IRCAction.sendRaw ("RELAYMSG ".data ++ chan ++ [' '] ++
            sanitiseNickname ud msg.author.username ++
            " :".data ++ [Char.ofNat 1] ++ "ACTION ".data ++ line ++ [Char.ofNat 1])
        else
          IRCAction.sendRaw ("RELAYMSG ".data ++ chan ++ [' '] ++
            sanitiseNickname ud msg.author.username ++ " :".data ++ line)
      else
        IRCAction.privmsg chan ("<".data ++
          (msg.author.username.take 1 ++ zwsp :: msg.author.username.drop 1) ++
          "#".data ++ msg.author.discriminator ++ "> ".data ++ line))

/-- A guild member as scanned by `generateNickname`: `member.User.ID`,
`member.Nick`, `member.User.Username`. -/
structure Member where
  userID : List Char
  nick : List Char
  username : List Char
deriving DecidableEq, Repr

/-- The guild state consulted through `Session.State.Guild`. -/
structure Guild where
  members : List Member
deriving DecidableEq, Repr

/-- Go `strings.EqualFold` on character lists. -/
def eqFoldChars (a b : List Char) : Bool := lowerChars a == lowerChars b

/-- Go `ircnick.MAXLENGTH`. Modelled from the spec: the `irc/nick` package
of this repository is not under `src/`; the spec only requires a nick
length cap, fixed here at 30. -/
def MAXLENGTH : Nat := 30

/-- Configuration consumed by the collision-avoiding `generateNickname`:
`Config.Suffix`, `Config.Separator`, `Config.MaxNickLength`. -/
structure CAConfig where
  suffix : List Char
  separator : List Char
  maxNickLength : Nat
deriving DecidableEq, Repr

/-- The roster scan of `generateNickname`: some other member's display
name (nick, or username when the nick is blank; blank names are skipped)
sanitises to the same nickname case-insensitively. -/
def memberClash (ud : List Char → List Char) (selfID nick : List Char)
    (members : List Member) : Bool :=
  members.any (fun mem =>
    decide (mem.userID ≠ selfID) &&
    (let name := if mem.nick = [] then mem.username else mem.nick
     decide (name ≠ []) && eqFoldChars (sanitiseNickname ud name) nick))

/-- The fallback path of `generateNickname`: truncated sanitised username
plus `Separator ++ Discriminator ++ Suffix`, capped at `MAXLENGTH`. -/
def fallbackNick (ud : List Char → List Char) (cfg : CAConfig)
    (user : DiscordUser) : List Char :=
  let username := sanitiseNickname ud user.username
  let sfx := cfg.separator ++ user.discriminator ++ cfg.suffix
  let length := MAXLENGTH - sfx.length
  let length := if length ≥ username.length then username.length else length
  username.take length ++ sfx

/-- Go `generateNickname` of the collision-avoiding revision
(`irc_puppeteer.go:116-185`): fall back when the decorated nick is too
long or already exists on IRC; otherwise look up the guild state — a
failed lookup returns the empty string — and fall back on a roster
clash; else return the decorated nick. -/
def generateNickname (ud : List Char → List Char) (cfg : CAConfig)
    (doesUserExist : List Char → Bool) (guild : Option Guild)
    (user : DiscordUser) : List Char :=
  let nick := sanitiseNickname ud user.nick
  let newNick := nick ++ cfg.suffix
  if decide (newNick.length > cfg.maxNickLength) || doesUserExist newNick then
    fallbackNick ud cfg user
  else
    match guild with
    | none => []
    | some g =>
      if memberClash ud user.id nick g.members then fallbackNick ud cfg user
      else newNick

end CA

/-- C3: a Discord message whose author id is in the configured ignore set
produces no IRC delivery at all from `SendMessage` — neither a `RELAYMSG`
directive nor a `PRIVMSG` line. -/
theorem sendMessage_ignored_author_drop (ud : List Char → List Char)
    (decoration : List Char) (ignores : List (List Char)) (channel : List Char)
    (msg : DiscordMessage) (h : msg.author.id ∈ ignores) :
    CA.sendMessage ud decoration ignores channel msg = [] := by
  rw [CA.sendMessage, if_pos]
  simp only [CA.ircIgnoredDiscord, decide_eq_true_eq]
  exact h

/-- Witness for C3: author id 42 is ignored, both with and without
relay-spoofing negotiated. -/
theorem sendMessage_ignored_author_drop_witness :
    (("42".data : List Char) ∈ [("42".data : List Char)]) ∧
    CA.sendMessage id "/d".data ["42".data] "#chan".data
      ⟨⟨"42".data, [], "Bob".data, "0".data⟩, "hello".data, false⟩ = [] ∧
    CA.sendMessage id [] ["42".data] "#chan".data
      ⟨⟨"42".data, [], "Bob".data, "0".data⟩, "hello".data, true⟩ = [] :=
  ⟨by decide,
   sendMessage_ignored_author_drop id "/d".data ["42".data] "#chan".data
     ⟨⟨"42".data, [], "Bob".data, "0".data⟩, "hello".data, false⟩ (by decide),
   sendMessage_ignored_author_drop id [] ["42".data] "#chan".data
     ⟨⟨"42".data, [], "Bob".data, "0".data⟩, "hello".data, true⟩ (by decide)⟩

/-- C10: in the collision-avoiding `generateNickname`, when the fallback
path is not taken (decorated nick short enough and not present on IRC)
and the guild-state lookup fails, the result is the empty string — even
though `sanitiseNickname` itself never returns an empty string. -/
theorem generateNickname_empty_on_guild_miss (ud : List Char → List Char)
    (cfg : CA.CAConfig) (doesUserExist : List Char → Bool) (user : DiscordUser)
    (hlen : (sanitiseNickname ud user.nick ++ cfg.suffix).length ≤ cfg.maxNickLength)
    (hexist : doesUserExist (sanitiseNickname ud user.nick ++ cfg.suffix) = false) :
    CA.generateNickname ud cfg doesUserExist none user = [] ∧
    sanitiseNickname ud user.nick ≠ [] := by
  refine ⟨?_, (sanitiseNickname_out ud user.nick).1⟩
  rw [CA.generateNickname]
  have h1 : decide ((sanitiseNickname ud user.nick ++ cfg.suffix).length >
      cfg.maxNickLength) = false := by
    simp only [decide_eq_false_iff_not, gt_iff_lt, not_lt]
    exact hlen
  simp only [h1, hexist, Bool.or_self, Bool.false_eq_true, if_false]

/-- Witness for C10: Bob's nickname fits and is unused, the guild lookup
fails, and the generated nickname is empty. -/
theorem generateNickname_empty_on_guild_miss_witness :
    ((sanitiseNickname id "Bob".data ++ ([] : List Char)).length ≤ 30 ∧
     (fun _ : List Char => false)
       (sanitiseNickname id "Bob".data ++ ([] : List Char)) = false) ∧
    (CA.generateNickname id ⟨[], "|".data, 30⟩ (fun _ => false) none
       ⟨"9".data, "Bob".data, "Bob".data, "0".data⟩ = [] ∧
     sanitiseNickname id "Bob".data ≠ []) :=
  ⟨⟨by decide, rfl⟩,
   generateNickname_empty_on_guild_miss id ⟨[], "|".data, 30⟩ (fun _ => false)
     ⟨"9".data, "Bob".data, "Bob".data, "0".data⟩ (by decide) rfl⟩

end Bridge

